import Mathlib

/-!
A verification development for the semantic-analysis layer of the Vitess
query compiler (package `semantics`).  The Go source is shallowly embedded:
`TableSet` (a `uint64` bitmask) becomes `Nat` with an explicit `% 2 ^ 64`
at the one place where overflow can occur, slices become lists, Go maps
become association lists, fallible functions return `Except`, and the
mutation of `SemTable` maps becomes explicit state passing.
-/

/-- `TableSet` is how a set of tables is expressed (Go: `type TableSet uint64`).
Tables get unique bits assigned in the order they are encountered.  We embed
the `uint64` as `Nat`; the one operation that can overflow 64 bits
(`1 << idx` in `TableSetFor`) carries an explicit `% 2 ^ 64`. -/
abbrev TableSet := Nat

namespace TableSet

/-- Go: `func (ts TableSet) IsOverlapping(b TableSet) bool { return ts&b != 0 }` -/
def IsOverlapping (ts b : TableSet) : Bool :=
  ts &&& b != 0

/-- Go: `func (ts TableSet) IsSolvedBy(b TableSet) bool { return ts&b == ts }` -/
def IsSolvedBy (ts b : TableSet) : Bool :=
  ts &&& b == ts

/-- Go: `NumberOfTables` counts the bits set using Brian Kernighan's
algorithm: `count := 0; for ts > 0 { ts &= ts - 1; count++ }; return count`. -/
def NumberOfTables (ts : TableSet) : Nat :=
  if h : ts > 0 then NumberOfTables (ts &&& (ts - 1)) + 1 else 0
decreasing_by
  exact Nat.lt_of_le_of_lt Nat.and_le_right (Nat.sub_lt h Nat.one_pos)

/-- Go: `TableOffset` returns the offset in the Tables array from a TableSet:
`offset := 0; for ts > 1 { ts = ts >> 1; offset++ }; return offset`. -/
def TableOffset (ts : TableSet) : Nat :=
  if h : ts > 1 then TableOffset (ts >>> 1) + 1 else 0
decreasing_by
  exact lt_of_eq_of_lt (Nat.shiftRight_one ts)
    (Nat.div_lt_self (Nat.lt_trans Nat.zero_lt_one h) Nat.one_lt_two)

/-- Go: `func (ts TableSet) Merge(other TableSet) TableSet { return ts | other }` -/
def Merge (ts other : TableSet) : TableSet :=
  ts ||| other

end TableSet

/-- Population count written directly from the spec's words
("`cardinality(a)` → population count"): the number of 1 digits in the
binary expansion, to be compared with the source's Kernighan loop. -/
def popCountSpec (n : Nat) : Nat :=
  if h : n = 0 then 0 else n % 2 + popCountSpec (n / 2)
decreasing_by
  exact Nat.div_lt_self (Nat.pos_of_ne_zero h) (by omega)

theorem popCountSpec_zero : popCountSpec 0 = 0 := by
  rw [popCountSpec]
  simp

theorem popCountSpec_two_mul (m : Nat) (h : 0 < m) :
    popCountSpec (2 * m) = popCountSpec m := by
  rw [popCountSpec, dif_neg (by omega)]
  have e1 : 2 * m % 2 = 0 := Nat.mul_mod_right 2 m
  have e2 : 2 * m / 2 = m := by omega
  rw [e1, e2, Nat.zero_add]

theorem popCountSpec_two_mul_add_one (m : Nat) :
    popCountSpec (2 * m + 1) = popCountSpec m + 1 := by
  rw [popCountSpec, dif_neg (by omega)]
  have e1 : (2 * m + 1) % 2 = 1 := by omega
  have e2 : (2 * m + 1) / 2 = m := by omega
  rw [e1, e2]
  omega

theorem testBit_two_mul_zero (m : Nat) : (2 * m).testBit 0 = false := by
  rw [Nat.testBit_zero]
  simp [Nat.mul_mod_right]

theorem testBit_two_mul_succ (m i : Nat) : (2 * m).testBit (i + 1) = m.testBit i := by
  rw [Nat.testBit_succ]
  congr 1
  omega

theorem testBit_two_mul_add_one_zero (m : Nat) : (2 * m + 1).testBit 0 = true := by
  rw [Nat.testBit_zero]
  simp [Nat.mul_add_mod]

theorem testBit_two_mul_add_one_succ (m i : Nat) :
    (2 * m + 1).testBit (i + 1) = m.testBit i := by
  rw [Nat.testBit_succ]
  congr 1
  omega

/-- Clearing trick, odd case: `(2m+1) &&& 2m = 2m`. -/
theorem odd_land_pred (m : Nat) : (2 * m + 1) &&& (2 * m) = 2 * m := by
  apply Nat.eq_of_testBit_eq
  intro i
  cases i with
  | zero =>
      rw [Nat.testBit_and, testBit_two_mul_zero]
      simp
  | succ i =>
      rw [Nat.testBit_and, testBit_two_mul_add_one_succ, testBit_two_mul_succ,
        Bool.and_self]

/-- Clearing trick, even case: for `m > 0`,
`(2m) &&& (2m - 1) = 2 * (m &&& (m - 1))`. -/
theorem even_land_pred (m : Nat) (h : 0 < m) :
    (2 * m) &&& (2 * m - 1) = 2 * (m &&& (m - 1)) := by
  have h1 : 2 * m - 1 = 2 * (m - 1) + 1 := by omega
  apply Nat.eq_of_testBit_eq
  intro i
  cases i with
  | zero =>
      rw [Nat.testBit_and, testBit_two_mul_zero, testBit_two_mul_zero]
      simp
  | succ i =>
      rw [Nat.testBit_and, testBit_two_mul_succ, h1, testBit_two_mul_add_one_succ,
        testBit_two_mul_succ, Nat.testBit_and]

theorem numberOfTables_zero : TableSet.NumberOfTables 0 = 0 := by
  rw [TableSet.NumberOfTables]
  simp

theorem numberOfTables_pos (ts : Nat) (h : 0 < ts) :
    TableSet.NumberOfTables ts = TableSet.NumberOfTables (ts &&& (ts - 1)) + 1 := by
  rw [TableSet.NumberOfTables, dif_pos h]

/-- Halving a set of tables does not change the Kernighan count. -/
theorem numberOfTables_two_mul (m : Nat) :
    TableSet.NumberOfTables (2 * m) = TableSet.NumberOfTables m := by
  induction m using Nat.strong_induction_on with
  | _ m ih =>
    by_cases hm : m = 0
    · subst hm
      norm_num
    · have hpos : 0 < m := Nat.pos_of_ne_zero hm
      rw [numberOfTables_pos (2 * m) (by omega)]
      have e0 : 2 * m - 1 = 2 * m - 1 := rfl
      rw [even_land_pred m hpos,
        ih (m &&& (m - 1)) (by have := Nat.and_le_right (n := m) (m := m - 1); omega),
        ← numberOfTables_pos m hpos]

/-- The Kernighan loop of the source computes exactly the population count. -/
theorem numberOfTables_eq_popCount (n : Nat) :
    TableSet.NumberOfTables n = popCountSpec n := by
  induction n using Nat.strong_induction_on with
  | _ n ih =>
    by_cases hn : n = 0
    · subst hn
      rw [numberOfTables_zero, popCountSpec_zero]
    · obtain ⟨m, hm⟩ : ∃ m, n = 2 * m ∨ n = 2 * m + 1 :=
        ⟨n / 2, by omega⟩
      cases hm with
      | inl h =>
          subst h
          have hmpos : 0 < m := by omega
          rw [numberOfTables_two_mul, ih m (by omega), popCountSpec_two_mul m hmpos]
      | inr h =>
          subst h
          rw [numberOfTables_pos (2 * m + 1) (by omega)]
          have e0 : 2 * m + 1 - 1 = 2 * m := by omega
          rw [e0, odd_land_pred, numberOfTables_two_mul, ih m (by omega),
            popCountSpec_two_mul_add_one]

/-- Distinct singleton sets share no bit. -/
theorem singleton_land_singleton (i j : Nat) (h : i ≠ j) :
    (1 <<< i) &&& (1 <<< j) = 0 := by
  apply Nat.eq_of_testBit_eq
  intro k
  rw [Nat.testBit_and, Nat.one_shiftLeft, Nat.one_shiftLeft, Nat.testBit_two_pow,
    Nat.testBit_two_pow, Nat.zero_testBit]
  by_cases hik : i = k
  · have hjk : j ≠ k := by omega
    simp [hik, hjk]
  · simp [hik]

/-- C7: Table-Set algebra laws: `overlaps(a,b)` is true iff `a & b != 0`,
`isSolvedBy(a,b)` is true iff `a & b == a`, `cardinality(a)` equals the
population count of `a`; consequently `isSolvedBy(a,a)` holds for every `a`,
and `overlaps` is false for every pair of disjoint singleton sets. -/
theorem c7_tableset_algebra :
    (∀ a b : TableSet, TableSet.IsOverlapping a b = true ↔ a &&& b ≠ 0) ∧
    (∀ a b : TableSet, TableSet.IsSolvedBy a b = true ↔ a &&& b = a) ∧
    (∀ a : TableSet, TableSet.NumberOfTables a = popCountSpec a) ∧
    (∀ a : TableSet, TableSet.IsSolvedBy a a = true) ∧
    (∀ i j : Nat, i ≠ j →
      TableSet.IsOverlapping (1 <<< i) (1 <<< j) = false) := by
  refine ⟨?_, ?_, numberOfTables_eq_popCount, ?_, ?_⟩
  · intro a b
    simp [TableSet.IsOverlapping]
  · intro a b
    simp [TableSet.IsSolvedBy]
  · intro a
    simp [TableSet.IsSolvedBy, Nat.and_self]
  · intro i j h
    simp [TableSet.IsOverlapping, singleton_land_singleton i j h]

/-- Witness for C7 at concrete inputs: the singleton sets for tables 0 and 1
are disjoint, so they do not overlap. -/
theorem c7_witness :
    (0 : Nat) ≠ 1 ∧ TableSet.IsOverlapping (1 <<< 0) (1 <<< 1) = false :=
  ⟨by decide, c7_tableset_algebra.2.2.2.2 0 1 (by decide)⟩

/-- A model of the parser's expression AST (`sqlparser.Expr`).  The parser is
an external collaborator of this package; the analysis only needs
identity-stable expression nodes.  `colName` models `*sqlparser.ColName`,
`litInt` a literal, `binary` any pointer-backed composite node, and
`valTuple` models the slice-backed node kinds (such as `sqlparser.ValTuple`)
whose content makes them unusable as stable map keys; its arity is fixed at
two children, which is irrelevant to the claims. -/
inductive Expr where
  | colName (name : String)
  | litInt (n : Int)
  | binary (op : String) (l r : Expr)
  | valTuple (a b : Expr)
deriving DecidableEq, Repr

/-- Modelled from the spec: `validAsMapKey` is not under src/.  The spec says
"Expression node types that cannot serve as a stable map key (e.g., they
contain content that breaks identity/equality assumptions)"; the slice-backed
tuple node is exactly such a type, the pointer-backed nodes are valid keys. -/
def validAsMapKey : Expr → Bool
  | .valTuple _ _ => false
  | _ => true

/-- Go: `type ExprDependencies map[sqlparser.Expr]TableSet`, embedded as an
association list (newest binding first, as a Go map update overwrites). -/
abbrev ExprMap := List (Expr × TableSet)

def lookupMap : ExprMap → Expr → Option TableSet
  | [], _ => none
  | (k, v) :: rest, e => if k = e then some v else lookupMap rest e

def insertMap (d : ExprMap) (e : Expr) (v : TableSet) : ExprMap :=
  (e, v) :: d

/-- The cache probe performed by the `Walk` closure inside
`ExprDependencies.Dependencies`: an expression that is not valid as a map
key is never looked up ("just carry on down the tree"). -/
def lookupCached (d : ExprMap) (e : Expr) : Option TableSet :=
  if validAsMapKey e then lookupMap d e else none

/-- The `sqlparser.Walk` performed by `ExprDependencies.Dependencies`:
top-down; at each node, a cache hit is ORed into the running result and the
node's children are not visited; on a miss the walk descends. -/
def collectDeps (d : ExprMap) (e : Expr) : TableSet :=
  match lookupCached d e with
  | some ts => ts
  | none =>
    match e with
    | .colName _ => 0
    | .litInt _ => 0
    | .binary _ l r => collectDeps d l ||| collectDeps d r
    | .valTuple a b => collectDeps d a ||| collectDeps d b

/-- Go: `func (d ExprDependencies) Dependencies(expr sqlparser.Expr) TableSet`.
The map mutation (`d[expr] = deps`) is returned as the second component.
Note the source checks `validAsMapKey` only inside the walk: the initial
lookup and the final store use `expr` as key unconditionally.  This version
models the map as a total association-list map;
`ExprDependencies.DependenciesGoMap` below makes the Go runtime panic on an
invalid key explicit, and the two agree on valid keys
(`dependenciesGoMap_valid`). -/
def ExprDependencies.Dependencies (d : ExprMap) (expr : Expr) : TableSet × ExprMap :=
  match lookupMap d expr with
  | some deps => (deps, d)
  | none =>
    let deps := collectDeps d expr
    (deps, insertMap d expr deps)

/-- All nodes of an expression tree: the node itself and its descendants. -/
def subNodes : Expr → List Expr
  | .colName s => [.colName s]
  | .litInt n => [.litInt n]
  | .binary op l r => .binary op l r :: (subNodes l ++ subNodes r)
  | .valTuple a b => .valTuple a b :: (subNodes a ++ subNodes b)

/-- The errors of the analysis, as an explicit error type.
`indexOutOfRange` models a Go runtime panic (out-of-bounds slice index),
`unhashableKey` a Go runtime panic on a map access whose interface key has
a non-comparable dynamic type ("hash of unhashable type"). -/
inductive SemErr where
  | multipleTables
  | nonUniqTable (name : String)
  | unknownColumn (name : String)
  | noTableName
  | indexOutOfRange
  | unhashableKey
deriving DecidableEq, Repr

/-- A Go map read with an interface key: a key whose dynamic type is not
comparable (`validAsMapKey` false) panics at runtime with
"hash of unhashable type"; the panic is modelled as `SemErr.unhashableKey`.
`Except.ok none` models "key not found". -/
def goMapFind (d : ExprMap) (e : Expr) : Except SemErr (Option TableSet) :=
  if validAsMapKey e then .ok (lookupMap d e) else .error .unhashableKey

/-- A Go map store with an interface key: panics exactly like `goMapFind`
when the key's dynamic type is not comparable. -/
def goMapStore (d : ExprMap) (e : Expr) (v : TableSet) : Except SemErr ExprMap :=
  if validAsMapKey e then .ok (insertMap d e v) else .error .unhashableKey

/-- `ExprDependencies.Dependencies` with Go's map-key semantics made
explicit: the source leaves the initial `d[expr]` read and the final
`d[expr] = deps` store unguarded, so for a top-level expression that is not
valid as a map key the very first map access panics; the walk's probes are
guarded by `validAsMapKey` and never panic.  On valid keys this agrees with
the total-map version `ExprDependencies.Dependencies`
(`dependenciesGoMap_valid`). -/
def ExprDependencies.DependenciesGoMap (d : ExprMap) (expr : Expr) :
    Except SemErr (TableSet × ExprMap) :=
  match goMapFind d expr with
  | .error e => .error e
  | .ok (some deps) => .ok (deps, d)
  | .ok none =>
    let deps := collectDeps d expr
    match goMapStore d expr deps with
    | .error e => .error e
    | .ok d2 => .ok (deps, d2)

/-- The part of a `TableInfo` that the `SemTable`- and scope-level operations
consult: the identity of its `*sqlparser.AliasedTableExpr` (`GetExpr()`,
a pointer modelled as a stable id) and the result of `Name()` (`none`
models the error case of `ASTNode.TableName()`). -/
structure TableInfoS where
  exprId : Nat
  name : Option String
deriving DecidableEq, Repr

/-- Go: the `columnName` key of `SemTable.ColumnEqualities`:
`{Table TableSet; ColumnName string}`. -/
structure ColKey where
  Table : TableSet
  ColumnName : String
deriving DecidableEq, Repr

abbrev CEMap := List (ColKey × List Expr)

/-- Go map lookup on `ColumnEqualities`; a missing key yields the zero
value, the empty slice. -/
def lookupCE : CEMap → ColKey → List Expr
  | [], _ => []
  | (k, v) :: rest, key => if k = key then v else lookupCE rest key

def insertCE (m : CEMap) (key : ColKey) (v : List Expr) : CEMap :=
  (key, v) :: m

/-- Go: `SemTable` restricted to the fields the claims touch: the
ordinal-ordered table list, the `Direct` dependency map and the
column-equality map.  (`Recursive` is handled by the same
`ExprDependencies.Dependencies` method and is omitted.) -/
structure SemTable where
  Tables : List TableInfoS
  Direct : ExprMap
  ColumnEqualities : CEMap
deriving DecidableEq, Repr

/-- The loop of `SemTable.TableSetFor`: scan `Tables` for the entry whose
AST node is identical to `t`; on a match return `1 << idx` — a `uint64`
shift, hence the explicit `% 2 ^ 64` — and `0` when no entry matches. -/
def tableSetForLoop : List TableInfoS → Nat → Nat → TableSet
  | [], _, _ => 0
  | t2 :: rest, t, idx =>
    if t == t2.exprId then (1 <<< idx) % 2 ^ 64 else tableSetForLoop rest t (idx + 1)

/-- Go: `func (st *SemTable) TableSetFor(t *sqlparser.AliasedTableExpr) TableSet`. -/
def SemTable.TableSetFor (st : SemTable) (t : Nat) : TableSet :=
  tableSetForLoop st.Tables t 0

/-- Go: `func (st *SemTable) TableInfoFor(id TableSet) (TableInfo, error)`.
`st.Tables[id.TableOffset()]` panics when the offset is out of range;
the panic is modelled as `SemErr.indexOutOfRange`. -/
def SemTable.TableInfoFor (st : SemTable) (id : TableSet) : Except SemErr TableInfoS :=
  if TableSet.NumberOfTables id > 1 then .error .multipleTables
  else
    match st.Tables[TableSet.TableOffset id]? with
    | some ti => .ok ti
    | none => .error .indexOutOfRange

/-- Go: `scope`, restricted to its `tables` field; `parent`, `selectStmt` and
`isUnion` are not consulted by `addTable`. -/
structure Scope where
  tables : List TableInfoS
deriving DecidableEq, Repr

/-- The collision scan of `scope.addTable`: each existing table's `Name()`
error propagates, and an exact (case-sensitive) name match is the
"Not unique table/alias" error. -/
def checkUnique (tblName : String) : List TableInfoS → Except SemErr Unit
  | [] => .ok ()
  | table :: rest =>
    match table.name with
    | none => .error .noTableName
    | some n =>
      if tblName == n then .error (.nonUniqTable n) else checkUnique tblName rest

/-- Go: `func (s *scope) addTable(info TableInfo) error`. -/
def Scope.addTable (s : Scope) (info : TableInfoS) : Except SemErr Scope :=
  match info.name with
  | none => .error .noTableName
  | some tblName =>
    match checkUnique tblName s.tables with
    | .error e => .error e
    | .ok _ => .ok { s with tables := s.tables ++ [info] }

/-- Go: `func (st *SemTable) AddColumnEquality(colName *sqlparser.ColName,
expr sqlparser.Expr)`: the key is the column's direct-dependency Table-Set
(computed by the memoizing `Dependencies`, whose map update is threaded
through) paired with the column's name, and `expr` is appended to the list
stored under that key. -/
def SemTable.AddColumnEquality (st : SemTable) (colNameArg : String) (expr : Expr) :
    SemTable :=
  let r := ExprDependencies.Dependencies st.Direct (.colName colNameArg)
  let key : ColKey := ⟨r.1, colNameArg⟩
  let elem := lookupCE st.ColumnEqualities key
  { st with
    Direct := r.2
    ColumnEqualities := insertCE st.ColumnEqualities key (elem ++ [expr]) }

/-- Go: `func (st *SemTable) GetExprAndEqualities(expr sqlparser.Expr)
[]sqlparser.Expr`: the expression itself, followed — when it is a column
reference — by the equalities stored under its key. -/
def SemTable.GetExprAndEqualities (st : SemTable) (expr : Expr) :
    List Expr × SemTable :=
  match expr with
  | .colName c =>
    let r := ExprDependencies.Dependencies st.Direct (.colName c)
    (.colName c :: lookupCE st.ColumnEqualities ⟨r.1, c⟩, { st with Direct := r.2 })
  | e => ([e], st)

theorem tableOffset_zero : TableSet.TableOffset 0 = 0 := by
  rw [TableSet.TableOffset]
  simp

theorem tableOffset_singleton (k : Nat) : TableSet.TableOffset (1 <<< k) = k := by
  induction k with
  | zero =>
    rw [TableSet.TableOffset]
    simp
  | succ k ih =>
    have hp : 0 < 2 ^ k := Nat.pos_pow_of_pos k (by omega)
    have e1 : (1 <<< (k + 1)) = 2 ^ k * 2 := by
      rw [Nat.one_shiftLeft, Nat.pow_succ]
    have e2 : (1 <<< (k + 1)) >>> 1 = 1 <<< k := by
      rw [Nat.shiftRight_one, e1, Nat.mul_div_cancel _ (by omega), Nat.one_shiftLeft]
    have hc : 1 <<< (k + 1) > 1 := by
      rw [e1]
      omega
    rw [TableSet.TableOffset, dif_pos hc, e2, ih]

theorem pow_land_pred (k : Nat) : (2 ^ k) &&& (2 ^ k - 1) = 0 := by
  apply Nat.eq_of_testBit_eq
  intro i
  rw [Nat.testBit_and, Nat.testBit_two_pow, Nat.testBit_two_pow_sub_one,
    Nat.zero_testBit]
  by_cases h : k = i
  · simp [h]
  · simp [h]

theorem numberOfTables_singleton (k : Nat) : TableSet.NumberOfTables (1 <<< k) = 1 := by
  rw [Nat.one_shiftLeft, numberOfTables_pos (2 ^ k) (Nat.pos_pow_of_pos k (by omega)),
    pow_land_pred, numberOfTables_zero]

/-- A registered table for the capacity experiment: AST node id `i` and a
one-character name, distinct for every `i < 65`. -/
def mkTable (i : Nat) : TableInfoS :=
  ⟨i, some (String.mk [Char.ofNat (48 + i)])⟩

def tables64 : List TableInfoS :=
  (List.range 64).map mkTable

def st65 : SemTable :=
  ⟨tables64 ++ [mkTable 64], [], []⟩

/-- C1: the claim says registering more than 64 distinct tables fails
explicitly with a CapacityExceeded error.  The code has no such check:
`scope.addTable` accepts a 65th distinct table, and `TableSetFor` computes
its singleton set as `1 << 64`, which silently wraps to `0` on the `uint64`
— the same value `TableSetFor` returns for a table that was never
registered.  This theorem evaluates the code at that failing input. -/
theorem c1_silent_overflow :
    Scope.addTable ⟨tables64⟩ (mkTable 64) = .ok ⟨tables64 ++ [mkTable 64]⟩ ∧
    SemTable.TableSetFor st65 64 = 0 ∧
    SemTable.TableSetFor st65 63 = 1 <<< 63 ∧
    SemTable.TableSetFor st65 99 = 0 ∧
    (1 <<< 64) % 2 ^ 64 = 0 := by
  refine ⟨rfl, rfl, rfl, rfl, rfl⟩

def tA : TableInfoS := ⟨10, some "a"⟩

def tB : TableInfoS := ⟨11, some "b"⟩

def stAB : SemTable := ⟨[tA, tB], [], []⟩

def stBA : SemTable := ⟨[tB, tA], [], []⟩

/-- C5 counterexample: on the empty Table-Set, `TableInfoFor` neither fails
nor returns a fixed "not found" result: it silently returns the TableInfo of
the first registered table — an unrelated table, and a different one for
different `SemTable`s. -/
theorem c5_counterexample :
    SemTable.TableInfoFor stAB 0 = .ok tA ∧
    SemTable.TableInfoFor stBA 0 = .ok tB ∧
    tA ≠ tB := by
  refine ⟨?_, ?_, by decide⟩
  · simp [SemTable.TableInfoFor, numberOfTables_zero, tableOffset_zero, stAB]
  · simp [SemTable.TableInfoFor, numberOfTables_zero, tableOffset_zero, stBA]

/-- C5 (amended): a Table-Set with more than one bit fails with the dedicated
multiple-tables error; the empty set returns the TableInfo at index 0 (the
first registered table) instead of a "not found" result; a singleton whose
ordinal has no registered table indexes out of range (a Go runtime panic). -/
theorem c5_amended (st : SemTable) (id : TableSet) :
    (TableSet.NumberOfTables id > 1 →
      SemTable.TableInfoFor st id = .error .multipleTables) ∧
    (∀ t rest, st.Tables = t :: rest → SemTable.TableInfoFor st 0 = .ok t) ∧
    (∀ k, st.Tables.length ≤ k →
      SemTable.TableInfoFor st (1 <<< k) = .error .indexOutOfRange) := by
  refine ⟨?_, ?_, ?_⟩
  · intro h
    simp [SemTable.TableInfoFor, h]
  · intro t rest ht
    simp [SemTable.TableInfoFor, numberOfTables_zero, tableOffset_zero, ht]
  · intro k hk
    have hnone : st.Tables[k]? = none := by
      rw [List.getElem?_eq_none hk]
    simp [SemTable.TableInfoFor, numberOfTables_singleton, tableOffset_singleton, hnone]

/-- Witness for C5 at concrete inputs: `3` has two bits set, and
`TableInfoFor` rejects it with the multiple-tables error. -/
theorem c5_witness :
    TableSet.NumberOfTables 3 > 1 ∧
    SemTable.TableInfoFor stAB 3 = Except.error SemErr.multipleTables := by
  have h3 : TableSet.NumberOfTables 3 = 2 := by
    rw [numberOfTables_pos 3 (by omega), show (3 &&& 2 : Nat) = 2 from by decide,
      numberOfTables_pos 2 (by omega), show (2 &&& 1 : Nat) = 0 from by decide,
      numberOfTables_zero]
  exact ⟨by omega, (c5_amended stAB 3).1 (by omega)⟩

def exTuple : Expr := .valTuple (.litInt 1) (.litInt 2)

/-- C4: the claim says an expression that is not valid as a map key is never
stored as a cache key, even as the top-level argument.  But the final
`d[expr] = deps` of `Dependencies` is unconditional: for a tuple-style
top-level argument the code stores (in Go: first even reads) the map at the
invalid key — under Go map semantics a runtime panic.  This theorem
evaluates the code at that failing input: after the call, the cache holds an
entry keyed by the invalid expression. -/
theorem c4_invalid_key_stored :
    validAsMapKey exTuple = false ∧
    ExprDependencies.Dependencies [] exTuple = (0, [(exTuple, 0)]) ∧
    lookupMap (ExprDependencies.Dependencies [] exTuple).2 exTuple = some 0 := by
  refine ⟨rfl, rfl, rfl⟩

theorem self_mem_subNodes (e : Expr) : e ∈ subNodes e := by
  cases e <;> simp [subNodes]

theorem collectDeps_zero (d : ExprMap) (e : Expr)
    (h : ∀ s ∈ subNodes e, lookupMap d s = none) : collectDeps d e = 0 := by
  induction e with
  | colName s =>
    have hself := h (.colName s) (by simp [subNodes])
    simp [collectDeps, lookupCached, hself]
  | litInt n =>
    have hself := h (.litInt n) (by simp [subNodes])
    simp [collectDeps, lookupCached, hself]
  | binary op l r ihl ihr =>
    have hself := h (.binary op l r) (by simp [subNodes])
    have hl : ∀ s ∈ subNodes l, lookupMap d s = none := fun s hs =>
      h s (List.mem_cons_of_mem _ (List.mem_append_left _ hs))
    have hr : ∀ s ∈ subNodes r, lookupMap d s = none := fun s hs =>
      h s (List.mem_cons_of_mem _ (List.mem_append_right _ hs))
    simp [collectDeps, lookupCached, hself, ihl hl, ihr hr]
  | valTuple a b iha ihb =>
    have ha : ∀ s ∈ subNodes a, lookupMap d s = none := fun s hs =>
      h s (List.mem_cons_of_mem _ (List.mem_append_left _ hs))
    have hb : ∀ s ∈ subNodes b, lookupMap d s = none := fun s hs =>
      h s (List.mem_cons_of_mem _ (List.mem_append_right _ hs))
    simp [collectDeps, lookupCached, validAsMapKey, iha ha, ihb hb]

theorem lookupMap_insert_self (d : ExprMap) (e : Expr) (v : TableSet) :
    lookupMap (insertMap d e v) e = some v := by
  simp [insertMap, lookupMap]

/-- A second `Dependencies` call on the same expression returns the value
the first call cached, and changes nothing. -/
theorem dependencies_idempotent (d : ExprMap) (e : Expr) :
    ExprDependencies.Dependencies (ExprDependencies.Dependencies d e).2 e
      = ExprDependencies.Dependencies d e := by
  cases hl : lookupMap d e with
  | some v => simp [ExprDependencies.Dependencies, hl]
  | none => simp [ExprDependencies.Dependencies, hl, lookupMap_insert_self]

/-- On a valid map key the Go-semantics version of `Dependencies` never
panics and computes exactly what the total-map version computes. -/
theorem dependenciesGoMap_valid (d : ExprMap) (e : Expr)
    (h : validAsMapKey e = true) :
    ExprDependencies.DependenciesGoMap d e
      = .ok (ExprDependencies.Dependencies d e) := by
  cases hl : lookupMap d e with
  | some v =>
    simp [ExprDependencies.DependenciesGoMap, ExprDependencies.Dependencies,
      goMapFind, goMapStore, h, hl]
  | none =>
    simp [ExprDependencies.DependenciesGoMap, ExprDependencies.Dependencies,
      goMapFind, goMapStore, h, hl]

/-- C10 counterexample: the claim's totality fails: a tuple-style expression
(not valid as a map key) is absent from the empty dependency map and none of
its sub-expressions has a cached entry, yet the lookup does not return the
empty Table-Set — the unguarded top-level map access fails (in Go, a runtime
panic: "hash of unhashable type"), so nothing is memoized either. -/
theorem c10_counterexample :
    (∀ s ∈ subNodes exTuple, lookupMap ([] : ExprMap) s = none) ∧
    ExprDependencies.DependenciesGoMap [] exTuple
      = .error .unhashableKey := by
  refine ⟨by decide, rfl⟩

/-- C10 (amended): for every expression that is valid as a map key, is
absent from the dependency map, and has no sub-expression with a cached
entry, `Dependencies` returns the empty Table-Set without failing and
stores the empty set under the expression's key — so a later lookup that
finds that cached entry returns the empty set regardless of entries
recorded since; for an expression that is not valid as a map key the
top-level map access fails (a Go runtime panic) instead. -/
theorem c10_amended (d : ExprMap) (e : Expr)
    (h : ∀ s ∈ subNodes e, lookupMap d s = none) :
    (validAsMapKey e = true →
      ExprDependencies.DependenciesGoMap d e = .ok (0, insertMap d e 0) ∧
      (∀ d2 : ExprMap, lookupMap d2 e = some 0 →
        ExprDependencies.DependenciesGoMap d2 e = .ok (0, d2))) ∧
    (validAsMapKey e = false →
      ExprDependencies.DependenciesGoMap d e = .error .unhashableKey) := by
  constructor
  · intro hv
    have hself : lookupMap d e = none := h e (self_mem_subNodes e)
    constructor
    · simp [ExprDependencies.DependenciesGoMap, goMapFind, goMapStore, hv,
        hself, collectDeps_zero d e h]
    · intro d2 h2
      simp [ExprDependencies.DependenciesGoMap, goMapFind, hv, h2]
  · intro hv
    simp [ExprDependencies.DependenciesGoMap, goMapFind, hv]

/-- Witness for C10 at a concrete input: a fresh map-keyable binary
expression over a map that only knows an unrelated literal resolves to the
empty set without failing and is cached. -/
theorem c10_witness :
    (∀ s ∈ subNodes (Expr.binary "+" (.colName "x") (.litInt 1)),
      lookupMap [(Expr.litInt 9, 5)] s = none) ∧
    validAsMapKey (Expr.binary "+" (.colName "x") (.litInt 1)) = true ∧
    ExprDependencies.DependenciesGoMap [(Expr.litInt 9, 5)]
        (Expr.binary "+" (.colName "x") (.litInt 1))
      = .ok (0, insertMap [(Expr.litInt 9, 5)]
          (Expr.binary "+" (.colName "x") (.litInt 1)) 0) :=
  ⟨by decide, by decide,
    ((c10_amended [(Expr.litInt 9, 5)] (Expr.binary "+" (.colName "x") (.litInt 1))
      (by decide)).1 (by decide)).1⟩

theorem lookupCE_insert_self (m : CEMap) (k : ColKey) (v : List Expr) :
    lookupCE (insertCE m k v) k = v := by
  simp [insertCE, lookupCE]

/-- C8: column-equality lookup: an expression with no recorded equalities
under its key resolves to the one-element list holding itself (and a
non-column expression always does); after `AddColumnEquality` records
`a = b`, looking up `a` yields `a` followed by the previously recorded
equalities and then `b` — `{a, b}` when nothing was recorded before. -/
theorem c8_get_expr_and_equalities :
    (∀ (st : SemTable) (e : Expr), (∀ c, e ≠ .colName c) →
      (SemTable.GetExprAndEqualities st e).1 = [e]) ∧
    (∀ (st : SemTable) (c : String),
      lookupCE st.ColumnEqualities
          ⟨(ExprDependencies.Dependencies st.Direct (.colName c)).1, c⟩ = [] →
      (SemTable.GetExprAndEqualities st (.colName c)).1 = [.colName c]) ∧
    (∀ (st : SemTable) (c : String) (b : Expr),
      (SemTable.GetExprAndEqualities (SemTable.AddColumnEquality st c b)
          (.colName c)).1
        = .colName c ::
            (lookupCE st.ColumnEqualities
              ⟨(ExprDependencies.Dependencies st.Direct (.colName c)).1, c⟩
              ++ [b])) := by
  refine ⟨?_, ?_, ?_⟩
  · intro st e h
    cases e with
    | colName c => exact absurd rfl (h c)
    | litInt n => rfl
    | binary op l r => rfl
    | valTuple a b => rfl
  · intro st c h
    simp [SemTable.GetExprAndEqualities, h]
  · intro st c b
    have hidem := dependencies_idempotent st.Direct (.colName c)
    simp [SemTable.AddColumnEquality, SemTable.GetExprAndEqualities, hidem,
      lookupCE_insert_self]

/-- Witness for C8 at concrete inputs: recording `a = 7` in an empty
SemTable and looking `a` up yields `[a, 7]`; a literal resolves to itself. -/
theorem c8_witness :
    (SemTable.GetExprAndEqualities ⟨[], [], []⟩ (.litInt 3)).1 = [.litInt 3] ∧
    (SemTable.GetExprAndEqualities
        (SemTable.AddColumnEquality ⟨[], [], []⟩ "a" (.litInt 7)) (.colName "a")).1
      = .colName "a" ::
          (lookupCE ([] : CEMap)
            ⟨(ExprDependencies.Dependencies ([] : ExprMap) (.colName "a")).1, "a"⟩
            ++ [.litInt 7]) :=
  ⟨c8_get_expr_and_equalities.1 ⟨[], [], []⟩ (.litInt 3)
      (fun _ h => Expr.noConfusion h),
    c8_get_expr_and_equalities.2.2 ⟨[], [], []⟩ "a" (.litInt 7)⟩

/-- `querypb.Type` is an enum; its zero value (0) is the unset type. -/
abbrev QType := Nat

/-- A catalog column of `vindexes.Table` (`col.Name.String()`, `col.Type`). -/
structure VCol where
  name : String
  typ : QType
deriving DecidableEq, Repr

/-- The part of `vindexes.Table` (an external collaborator, not under src/)
that `vindexTableToColumnInfo` reads: the catalog column list, the
authoritativeness flag, and — for each ColumnVindex — the names of its
columns. -/
structure VindexesTable where
  Columns : List VCol
  ColumnListAuthoritative : Bool
  ColumnVindexes : List (List String)
deriving DecidableEq, Repr

/-- Go: `ColumnInfo{Name string; Type querypb.Type}`.  The Go field `Type`
is spelled `Typ` (`Type` is a Lean keyword).  A column synthesized from a
vindex is appended with only its name, so its type is the zero value. -/
structure ColumnInfo where
  Name : String
  Typ : QType
deriving DecidableEq, Repr

/-- The vindex-column loop of `vindexTableToColumnInfo` over one vindex's
columns: a name already in `nameMap` is skipped, otherwise a type-less
`ColumnInfo` is appended and the name recorded.  The membership test is on
the exact string, as a Go map keyed by `col.Name.String()` is. -/
def addVindexCols : List ColumnInfo × List String → List String →
    List ColumnInfo × List String
  | acc, [] => acc
  | (cols, seen), name :: rest =>
    if name ∈ seen then addVindexCols (cols, seen) rest
    else addVindexCols (cols ++ [⟨name, 0⟩], seen ++ [name]) rest

/-- Go: `func vindexTableToColumnInfo(tbl *vindexes.Table) []ColumnInfo`:
nil yields nil; the catalog columns are copied (their names populating
`nameMap`); when the list is authoritative the vindex columns are not
consulted, otherwise each vindex column not already seen is appended. -/
def vindexTableToColumnInfo : Option VindexesTable → List ColumnInfo
  | none => []
  | some tbl =>
    let cols := tbl.Columns.map (fun c => ColumnInfo.mk c.name c.typ)
    let seen := tbl.Columns.map VCol.name
    if tbl.ColumnListAuthoritative then cols
    else (tbl.ColumnVindexes.foldl addVindexCols (cols, seen)).1

/-- Go: `AliasedTable{tableName string; ASTNode *sqlparser.AliasedTableExpr;
Table *vindexes.Table; isInfSchema bool}`; the AST pointer is modelled as a
stable id and the possibly-nil table as an `Option`. -/
structure AliasedTable where
  tableName : String
  astNodeId : Nat
  Table : Option VindexesTable
  isInfSchema : Bool
deriving DecidableEq, Repr

/-- Go: `func (a *AliasedTable) GetColumns() []ColumnInfo`. -/
def AliasedTable.GetColumns (a : AliasedTable) : List ColumnInfo :=
  vindexTableToColumnInfo a.Table

/-- Go: `a.Table != nil && a.Table.ColumnListAuthoritative`. -/
def AliasedTable.Authoritative (a : AliasedTable) : Bool :=
  match a.Table with
  | some tbl => tbl.ColumnListAuthoritative
  | none => false

/-- ASCII lower-casing of one character. -/
def foldChar (c : Char) : Char :=
  if 'A' ≤ c ∧ c ≤ 'Z' then Char.ofNat (c.toNat + 32) else c

/-- Models `strings.EqualFold`: case-insensitive string equality (folding
restricted to ASCII letters, which is all the claims exercise). -/
def eqFold (a b : String) : Bool :=
  a.data.map foldChar == b.data.map foldChar

/-- Modelled from the spec: the tri-state dependency result of §3 —
"Certain(table-set, type) / Uncertain(table-set) / Absent".  Its
constructors correspond to `createCertain(direct, recursive, type)`,
`createUncertain(direct, recursive)` and `nothing{}` of the dependencies
file, which is not under src/; the call sites in src pass the same set for
the direct and the recursive component. -/
inductive Dependency where
  | certain (direct recursive : TableSet) (typ : QType)
  | uncertain (direct recursive : TableSet)
  | nothing
deriving DecidableEq, Repr

/-- Go: `func depsForAliasedAndRealTables(colName string, org originable,
node *sqlparser.AliasedTableExpr, columns []ColumnInfo, authoritative bool)
(dependencies, error)`.  `ts := org.tableSetFor(node)` is passed in as `ts`;
the column list is scanned linearly with `strings.EqualFold`, and only when
no column matches is the authoritativeness flag consulted. -/
def depsForAliasedAndRealTables (colNameArg : String) (ts : TableSet) :
    List ColumnInfo → Bool → Dependency
  | [], true => .nothing
  | [], false => .uncertain ts ts
  | info :: rest, authoritative =>
    if eqFold info.Name colNameArg then .certain ts ts info.Typ
    else depsForAliasedAndRealTables colNameArg ts rest authoritative

/-- Go: `func (a *AliasedTable) Dependencies(colName string, org originable)
(dependencies, error)`: delegates to the scan with `a.GetColumns()` and
`a.Authoritative()`; `org` is modelled as its `tableSetFor` callback on the
AST node id. -/
def AliasedTable.Dependencies (a : AliasedTable) (colNameArg : String)
    (org : Nat → TableSet) : Dependency :=
  depsForAliasedAndRealTables colNameArg (org a.astNodeId) a.GetColumns a.Authoritative

/-- `sqlparser.TableIdent`: the raw identifier string. -/
structure TableIdent where
  v : String
deriving DecidableEq, Repr

def TableIdent.IsEmpty (t : TableIdent) : Bool :=
  t.v == ""

/-- `sqlparser.TableName`: qualifier and name. -/
structure TableName where
  Qualifier : TableIdent
  Name : TableIdent
deriving DecidableEq, Repr

/-- Go: `func (a *AliasedTable) Matches(name sqlparser.TableName) bool {
return a.tableName == name.Name.String() && name.Qualifier.IsEmpty() }`. -/
def AliasedTable.Matches (a : AliasedTable) (name : TableName) : Bool :=
  a.tableName == name.Name.v && name.Qualifier.IsEmpty

/-- Go: `func (a *AliasedTable) GetExprFor(s string) (sqlparser.Expr, error)`
always fails with `Unknown column '<s>' in 'field list'` — the
UnresolvableColumn error. -/
def AliasedTable.GetExprFor (_ : AliasedTable) (s : String) : Except SemErr Expr :=
  .error (.unknownColumn s)

/-- The `sqlparser.Rewrite` pass of `RewriteDerivedExpression`, applied to
the clone: at a `ColName` node, `GetExprFor` is consulted — on success the
node is replaced by the projection expression and the cursor does not
descend; on error the closure returns `false` without recording the error,
leaving the node unchanged.  All other nodes are descended into.  The
`TableInfo` argument enters as its `GetExprFor` method `gef`. -/
def rewriteExpr (gef : String → Except SemErr Expr) : Expr → Expr
  | .colName s =>
    match gef s with
    | .ok exp => exp
    | .error _ => .colName s
  | .litInt n => .litInt n
  | .binary op l r => .binary op (rewriteExpr gef l) (rewriteExpr gef r)
  | .valTuple a b => .valTuple (rewriteExpr gef a) (rewriteExpr gef b)

/-- Go: `func RewriteDerivedExpression(expr sqlparser.Expr, vt TableInfo)
(sqlparser.Expr, error)`: clones the input, rewrites the clone, and returns
it with a nil error on every path. -/
def RewriteDerivedExpression (gef : String → Except SemErr Expr) (expr : Expr) :
    Except SemErr Expr :=
  .ok (rewriteExpr gef expr)

/-- Whether a column reference with the given name occurs in an expression. -/
def occursColName (s : String) : Expr → Bool
  | .colName c => c == s
  | .litInt _ => false
  | .binary _ l r => occursColName s l || occursColName s r
  | .valTuple a b => occursColName s a || occursColName s b

/-- C3: resolving a column against an aliased/real table is a linear
case-insensitive scan of the column list: some case-insensitively matching
column yields Certain with that column's type and the table's set (both as
direct and recursive component); no match with an authoritative list yields
Absent; no match with a non-authoritative list yields Uncertain — and a
non-authoritative table never yields Absent. -/
theorem c3_dependencies_tri_state (colNameArg : String) (ts : TableSet)
    (cols : List ColumnInfo) (auth : Bool) :
    ((∃ c ∈ cols, eqFold c.Name colNameArg = true) →
      ∃ c ∈ cols, eqFold c.Name colNameArg = true ∧
        depsForAliasedAndRealTables colNameArg ts cols auth
          = .certain ts ts c.Typ) ∧
    ((∀ c ∈ cols, eqFold c.Name colNameArg = false) → auth = true →
      depsForAliasedAndRealTables colNameArg ts cols auth = .nothing) ∧
    ((∀ c ∈ cols, eqFold c.Name colNameArg = false) → auth = false →
      depsForAliasedAndRealTables colNameArg ts cols auth = .uncertain ts ts) ∧
    (auth = false →
      depsForAliasedAndRealTables colNameArg ts cols auth ≠ .nothing) := by
  induction cols with
  | nil =>
    refine ⟨?_, ?_, ?_, ?_⟩
    · rintro ⟨c, hc, -⟩
      exact absurd hc (List.not_mem_nil c)
    · intro _ ha
      subst ha
      rfl
    · intro _ ha
      subst ha
      rfl
    · intro ha
      subst ha
      simp [depsForAliasedAndRealTables]
  | cons info rest ih =>
    by_cases hm : eqFold info.Name colNameArg = true
    · refine ⟨?_, ?_, ?_, ?_⟩
      · intro _
        exact ⟨info, List.mem_cons_self info rest, hm,
          by simp [depsForAliasedAndRealTables, hm]⟩
      · intro hall _
        exact absurd hm (by simp [hall info (List.mem_cons_self info rest)])
      · intro hall _
        exact absurd hm (by simp [hall info (List.mem_cons_self info rest)])
      · intro _
        simp [depsForAliasedAndRealTables, hm]
    · have hstep : depsForAliasedAndRealTables colNameArg ts (info :: rest) auth
          = depsForAliasedAndRealTables colNameArg ts rest auth := by
        simp [depsForAliasedAndRealTables, hm]
      refine ⟨?_, ?_, ?_, ?_⟩
      · rintro ⟨c, hc, hcm⟩
        rcases List.mem_cons.mp hc with hceq | hcrest
        · subst hceq
          exact absurd hcm hm
        · obtain ⟨c', hc', hm', hd'⟩ := ih.1 ⟨c, hcrest, hcm⟩
          exact ⟨c', List.mem_cons_of_mem _ hc', hm', by rw [hstep, hd']⟩
      · intro hall ha
        rw [hstep]
        exact ih.2.1 (fun c hc => hall c (List.mem_cons_of_mem _ hc)) ha
      · intro hall ha
        rw [hstep]
        exact ih.2.2.1 (fun c hc => hall c (List.mem_cons_of_mem _ hc)) ha
      · intro ha
        rw [hstep]
        exact ih.2.2.2 ha

/-- Witness for C3 at the spec's own example: an authoritative table with
columns `{id:int, name:string}` resolves `missing` to Absent, and resolves
`ID` (case-insensitively) to Certain with the column's type. -/
theorem c3_witness :
    (∀ c ∈ [ColumnInfo.mk "id" 1, ColumnInfo.mk "name" 2],
      eqFold c.Name "missing" = false) ∧
    depsForAliasedAndRealTables "missing" 4 [⟨"id", 1⟩, ⟨"name", 2⟩] true
      = Dependency.nothing ∧
    (∃ c ∈ [ColumnInfo.mk "id" 1, ColumnInfo.mk "name" 2],
      eqFold c.Name "ID" = true ∧
        depsForAliasedAndRealTables "ID" 4 [⟨"id", 1⟩, ⟨"name", 2⟩] true
          = .certain 4 4 c.Typ) :=
  ⟨by decide,
    (c3_dependencies_tri_state "missing" 4 [⟨"id", 1⟩, ⟨"name", 2⟩] true).2.1
      (by decide) rfl,
    (c3_dependencies_tri_state "ID" 4 [⟨"id", 1⟩, ⟨"name", 2⟩] true).1
      ⟨⟨"id", 1⟩, by decide, by decide⟩⟩

def dupTable : VindexesTable :=
  ⟨[⟨"Foo", 1⟩], false, [["foo"]]⟩

/-- C6 counterexample: duplicate suppression compares the exact string, not
case-insensitively: a routing-vindex column `foo` on a non-authoritative
table whose catalog column is `Foo` yields two entries whose names are equal
under case-insensitive comparison. -/
theorem c6_counterexample :
    vindexTableToColumnInfo (some dupTable)
      = [⟨"Foo", 1⟩, ⟨"foo", 0⟩] ∧
    eqFold "Foo" "foo" = true := by
  refine ⟨rfl, by decide⟩

theorem addVindexCols_invariant (names : List String) (cols : List ColumnInfo)
    (seen : List String) (hseen : seen = cols.map ColumnInfo.Name)
    (hnd : seen.Nodup) :
    (addVindexCols (cols, seen) names).2
        = (addVindexCols (cols, seen) names).1.map ColumnInfo.Name ∧
    (addVindexCols (cols, seen) names).2.Nodup := by
  induction names generalizing cols seen with
  | nil => exact ⟨hseen, hnd⟩
  | cons name rest ih =>
    have hdef : addVindexCols (cols, seen) (name :: rest)
        = if name ∈ seen then addVindexCols (cols, seen) rest
          else addVindexCols (cols ++ [⟨name, 0⟩], seen ++ [name]) rest := rfl
    by_cases hc : name ∈ seen
    · have hstep : addVindexCols (cols, seen) (name :: rest)
          = addVindexCols (cols, seen) rest := by
        rw [hdef, if_pos hc]
      rw [hstep]
      exact ih cols seen hseen hnd
    · have hstep : addVindexCols (cols, seen) (name :: rest)
          = addVindexCols (cols ++ [⟨name, 0⟩], seen ++ [name]) rest := by
        rw [hdef, if_neg hc]
      have hseen' : seen ++ [name]
          = (cols ++ [(⟨name, 0⟩ : ColumnInfo)]).map ColumnInfo.Name := by
        simp [hseen]
      have hnd' : (seen ++ [name]).Nodup := by
        rw [List.nodup_append]
        refine ⟨hnd, List.nodup_singleton name, ?_⟩
        intro a ha hb
        simp at hb
        subst hb
        exact hc ha
      rw [hstep]
      exact ih (cols ++ [⟨name, 0⟩]) (seen ++ [name]) hseen' hnd'

theorem foldl_addVindexCols_invariant (vs : List (List String))
    (acc : List ColumnInfo × List String)
    (hseen : acc.2 = acc.1.map ColumnInfo.Name) (hnd : acc.2.Nodup) :
    (vs.foldl addVindexCols acc).2
        = (vs.foldl addVindexCols acc).1.map ColumnInfo.Name ∧
    (vs.foldl addVindexCols acc).2.Nodup := by
  induction vs generalizing acc with
  | nil => exact ⟨hseen, hnd⟩
  | cons v rest ih =>
    have h := addVindexCols_invariant v acc.1 acc.2 hseen hnd
    rw [List.foldl_cons]
    exact ih (addVindexCols (acc.1, acc.2) v) h.1 h.2

/-- C6 (amended): duplicates are suppressed by the exact (case-sensitive)
name only: when the catalog column names are pairwise distinct, the whole
returned list has pairwise-distinct name strings; but two entries may still
be equal under case-insensitive comparison (see the counterexample). -/
theorem c6_amended (tbl : VindexesTable)
    (h : (tbl.Columns.map VCol.name).Nodup) :
    ((vindexTableToColumnInfo (some tbl)).map ColumnInfo.Name).Nodup := by
  have hmap : (tbl.Columns.map (fun c => ColumnInfo.mk c.name c.typ)).map
      ColumnInfo.Name = tbl.Columns.map VCol.name := by
    simp [List.map_map]
  rw [vindexTableToColumnInfo]
  by_cases ha : tbl.ColumnListAuthoritative = true
  · rw [if_pos ha, hmap]
    exact h
  · rw [if_neg ha]
    have hinv := foldl_addVindexCols_invariant tbl.ColumnVindexes
      (tbl.Columns.map (fun c => ColumnInfo.mk c.name c.typ),
        tbl.Columns.map VCol.name) hmap.symm h
    rw [← hinv.1]
    exact hinv.2

/-- Witness for C6 at a concrete input: the counterexample table has distinct
catalog names, and the returned list's names are (case-sensitively) distinct. -/
theorem c6_witness :
    (dupTable.Columns.map VCol.name).Nodup ∧
    ((vindexTableToColumnInfo (some dupTable)).map ColumnInfo.Name).Nodup :=
  ⟨by decide, c6_amended dupTable (by decide)⟩

def exTable9 : AliasedTable := ⟨"t", 0, none, false⟩

/-- C9 counterexample: `Matches` demands an empty qualifier, so no qualified
reference ever resolves to the table — not even one whose name part is
exactly the table's resolved name — while the unqualified reference does. -/
theorem c9_counterexample :
    AliasedTable.Matches exTable9 ⟨⟨"ks"⟩, ⟨"t"⟩⟩ = false ∧
    AliasedTable.Matches exTable9 ⟨⟨""⟩, ⟨"t"⟩⟩ = true ∧
    ¬ ∃ name : TableName, name.Qualifier.IsEmpty = false ∧
        AliasedTable.Matches exTable9 name = true := by
  refine ⟨rfl, rfl, ?_⟩
  rintro ⟨name, hq, hm⟩
  rw [AliasedTable.Matches, Bool.and_eq_true] at hm
  rw [hq] at hm
  exact Bool.false_ne_true hm.2

/-- C9 (amended): `Matches` accepts exactly the unqualified reference whose
name equals the stored table name; every qualified reference is rejected. -/
theorem c9_amended (a : AliasedTable) (q n : String) :
    (q ≠ "" → AliasedTable.Matches a ⟨⟨q⟩, ⟨n⟩⟩ = false) ∧
    (AliasedTable.Matches a ⟨⟨""⟩, ⟨n⟩⟩ = (a.tableName == n)) := by
  constructor
  · intro h
    simp [AliasedTable.Matches, TableIdent.IsEmpty, h]
  · simp [AliasedTable.Matches, TableIdent.IsEmpty]

/-- Witness for C9 at concrete inputs: a reference qualified by `ks` does
not match the table named `t`. -/
theorem c9_witness :
    ("ks" : String) ≠ "" ∧
    AliasedTable.Matches exTable9 ⟨⟨"ks"⟩, ⟨"x"⟩⟩ = false :=
  ⟨by decide, (c9_amended exTable9 "ks" "x").1 (by decide)⟩

def exDerived : AliasedTable := ⟨"dt", 1, none, false⟩

/-- C2 counterexample: `GetExprFor` fails for `foo` with the
UnresolvableColumn error ("Unknown column 'foo' in 'field list'"), the
expression contains the reference `foo`, yet `RewriteDerivedExpression`
succeeds — it returns the expression with the unresolvable reference left in
place and a nil error, never propagating the failure. -/
theorem c2_counterexample :
    AliasedTable.GetExprFor exDerived "foo" = .error (.unknownColumn "foo") ∧
    occursColName "foo" (.colName "foo") = true ∧
    RewriteDerivedExpression (AliasedTable.GetExprFor exDerived) (.colName "foo")
      = .ok (.colName "foo") := by
  refine ⟨rfl, ?_, rfl⟩
  decide

/-- C2 (amended): `RewriteDerivedExpression` never returns an error: it
returns the rewritten clone (the input itself is never mutated — the source
clones before rewriting, and the embedding is pure), in which a column
reference whose `GetExprFor` lookup succeeds is replaced by the underlying
projection expression, while a reference whose lookup fails survives
unchanged in the output instead of raising UnresolvableColumn. -/
theorem c2_amended (gef : String → Except SemErr Expr) (e : Expr) :
    RewriteDerivedExpression gef e = .ok (rewriteExpr gef e) ∧
    (∀ s ex, gef s = .ok ex → rewriteExpr gef (.colName s) = ex) ∧
    (∀ s, (∃ err, gef s = .error err) → occursColName s e = true →
      occursColName s (rewriteExpr gef e) = true) := by
  refine ⟨rfl, ?_, ?_⟩
  · intro s ex h
    simp [rewriteExpr, h]
  · intro s herr hocc
    obtain ⟨err, herr⟩ := herr
    induction e with
    | colName c =>
      have hcs : c = s := by simpa [occursColName] using hocc
      subst hcs
      simp [rewriteExpr, herr, occursColName]
    | litInt n =>
      rw [occursColName] at hocc
      exact absurd hocc Bool.false_ne_true
    | binary op l r ihl ihr =>
      rw [occursColName, Bool.or_eq_true] at hocc
      rw [rewriteExpr, occursColName, Bool.or_eq_true]
      cases hocc with
      | inl h => exact Or.inl (ihl h)
      | inr h => exact Or.inr (ihr h)
    | valTuple a b iha ihb =>
      rw [occursColName, Bool.or_eq_true] at hocc
      rw [rewriteExpr, occursColName, Bool.or_eq_true]
      cases hocc with
      | inl h => exact Or.inl (iha h)
      | inr h => exact Or.inr (ihb h)

def gefEx : String → Except SemErr Expr :=
  fun s => if s == "foo" then .error (.unknownColumn s) else .ok (.litInt 1)

/-- Witness for C2 at concrete inputs: with a lookup failing only for `foo`,
the rewritten output of `foo + bar` still contains `foo` (and the call as a
whole succeeded). -/
theorem c2_witness :
    (∃ err, gefEx "foo" = .error err) ∧
    occursColName "foo" (.binary "+" (.colName "foo") (.colName "bar")) = true ∧
    occursColName "foo"
      (rewriteExpr gefEx (.binary "+" (.colName "foo") (.colName "bar"))) = true :=
  ⟨⟨.unknownColumn "foo", rfl⟩, by decide,
    (c2_amended gefEx (.binary "+" (.colName "foo") (.colName "bar"))).2.2 "foo"
      ⟨.unknownColumn "foo", rfl⟩ (by decide)⟩
